import Mathlib

/-!
Verification development for the gmail-slack-forwarder repository.

The JavaScript source is shallowly embedded into Lean:
* sheet rows, pattern lists and run statistics become inductive data;
* each JS function of interest becomes a computable Lean function whose
  branching mirrors the source line by line;
* JS strings are modelled as Lean `String` where no character surgery
  happens, and as `List Char` (sequences of code units) where the source
  slices, splits or concatenates strings;
* a JS `try`/`catch` around an external store access is modelled by an
  explicit outcome value (`SheetAccess` below), and a catch that converts a
  thrown pattern evaluation into a non-match is modelled by `Option Bool`.
-/

/-! ## Deduplication ledger (spreadsheetManager: markMessageProcessedInSheet,
cleanupOldEntriesInSheet, isMessageProcessedInSheet) -/

/-- One data row of the ProcessedMessages sheet.  The source appends
`[messageId, subject, sender, processedDate, timestamp]`; the `Date` object
is modelled by its epoch-millisecond value, which is also what the fifth
column stores. -/
structure SheetRow where
  messageId : String
  subject : String
  sender : String
  timestamp : Nat
deriving DecidableEq, Repr

/-- SPREADSHEET_CONFIG.MAX_ROWS from the source. -/
def MAX_ROWS : Nat := 10000

/-- SPREADSHEET_CONFIG.CLEANUP_BATCH_SIZE from the source. -/
def CLEANUP_BATCH_SIZE : Nat := 1000

/-- Embedding of `cleanupOldEntriesInSheet`.  `rows` are the data rows of
the sheet (the header row is accounted for by the `1 +` terms, matching the
source's `lastRow` arithmetic).  `rowsToDelete` is computed as an integer
because the JS subtraction may be negative; `deleteRows(2, …)` removes rows
from the top of the sheet, i.e. the front of the list. -/
def cleanupOldEntriesInSheet (rows : List SheetRow) : List SheetRow :=
  let lastRow : Int := 1 + rows.length
  let rowsToDelete : Int := lastRow - MAX_ROWS - 1
  if rowsToDelete ≤ 0 then rows
  else rows.drop (min rowsToDelete.toNat CLEANUP_BATCH_SIZE)

/-- Embedding of `markMessageProcessedInSheet`：the row is appended
unconditionally (`sheet.appendRow`), and cleanup is triggered afterwards
when `getLastRow()` (header plus data rows) exceeds
`MAX_ROWS + CLEANUP_BATCH_SIZE`. -/
def markMessageProcessedInSheet (rows : List SheetRow) (r : SheetRow) : List SheetRow :=
  let rows' := rows ++ [r]
  let rowCount := 1 + rows'.length
  if rowCount > MAX_ROWS + CLEANUP_BATCH_SIZE then cleanupOldEntriesInSheet rows'
  else rows'

/-- Outcome of reaching the tracking sheet, as observed by
`isMessageProcessedInSheet`: the store access may throw
(`accessError`, the catch branch of the source), the sheet may be missing
(`getSheetByName` returns null), or the data rows are read. -/
inductive SheetAccess where
  | accessError
  | missingSheet
  | sheet (rows : List SheetRow)

/-- Embedding of `isMessageProcessedInSheet`: any thrown store access is
caught and yields `false`; a missing sheet yields `false`; with
`lastRow ≤ 1` (no data rows) it yields `false`; otherwise membership of the
message id in column one. -/
def isMessageProcessedInSheet (access : SheetAccess) (messageId : String) : Bool :=
  match access with
  | .accessError => false
  | .missingSheet => false
  | .sheet rows =>
    if rows.length = 0 then false
    else (rows.map (·.messageId)).contains messageId

/-- Embedding of `isMessageAlreadyProcessed` (emailProcessor): it forwards
to `isMessageProcessedInSheet` and its own catch also returns `false`;
since the inner function is total here, the wrapper is the identity on its
result. -/
def isMessageAlreadyProcessed (access : SheetAccess) (messageId : String) : Bool :=
  isMessageProcessedInSheet access messageId

/-- The caller-side dedup step of `processEmails` (main.js lines 126-139):
a message is recorded only when `isMessageAlreadyProcessed` was false
immediately before (check-then-record on the same sheet state). -/
def processEmailsRecordStep (rows : List SheetRow) (r : SheetRow) : List SheetRow :=
  if isMessageAlreadyProcessed (SheetAccess.sheet rows) r.messageId then rows
  else markMessageProcessedInSheet rows r

/-- Concrete row used by counterexamples and witnesses. -/
def sampleRow : SheetRow :=
  { messageId := "m1", subject := "s", sender := "a@b", timestamp := 0 }

/-! ## Subject pattern matching (emailProcessor: checkMultiplePatterns) -/

/-- A configured subject pattern: `name` is `pattern.toString()` and
`test subject` is the outcome of `pattern.test(subject)` — `some b` when the
evaluation returns `b`, `none` when it throws (the source catches the throw
and records a non-match for that pattern). -/
structure SubjectPattern where
  name : String
  test : String → Option Bool

/-- One element of the `results` array built by `checkMultiplePatterns`. -/
structure PatternCheck where
  pattern : String
  isMatch : Bool
  errored : Bool
deriving Repr

/-- The object returned by `checkMultiplePatterns` (fields that carry
behaviour; `matchDetails`/`summary` are derived data omitted here). -/
structure MultiPatternResult where
  isMatch : Bool
  matchedPattern : Option String
  checkedPatterns : List String
  allResults : List PatternCheck
  matchMode : String

/-- The `for` loop of `checkMultiplePatterns`, with the accumulated
`checkedPatterns` and `results` arrays made explicit.  In `any` mode the
loop returns immediately on the first successful match; a thrown pattern
evaluation is recorded as a non-match and the loop continues.  After the
loop the final result is assembled exactly as in the source
(`hasMatches`/`allMatch`, and `matchedPattern` from the first matching
entry of `results`). -/
def checkMultiplePatternsGo (subject : String) (matchMode : String)
    (checked : List String) (results : List PatternCheck) :
    List SubjectPattern → MultiPatternResult
  | [] =>
    let hasMatches := results.any (·.isMatch)
    let allMatch := results.all (·.isMatch)
    let finalMatch := if matchMode == "any" then hasMatches else allMatch
    { isMatch := finalMatch
      matchedPattern :=
        if finalMatch then (results.find? (·.isMatch)).map (·.pattern) else none
      checkedPatterns := checked
      allResults := results
      matchMode := matchMode }
  | p :: ps =>
    let checked' := checked ++ [p.name]
    match p.test subject with
    | some isMatch =>
      let results' := results ++ [⟨p.name, isMatch, false⟩]
      if matchMode == "any" && isMatch then
        { isMatch := true
          matchedPattern := some p.name
          checkedPatterns := checked'
          allResults := results'
          matchMode := matchMode }
      else checkMultiplePatternsGo subject matchMode checked' results' ps
    | none =>
      checkMultiplePatternsGo subject matchMode checked'
        (results ++ [⟨p.name, false, true⟩]) ps

/-- Embedding of `checkMultiplePatterns`.  The source reads the pattern
list and the match mode from `CONFIG.SUBJECT_PATTERNS`; they are passed as
parameters here. -/
def checkMultiplePatterns (subject : String) (patterns : List SubjectPattern)
    (matchMode : String) : MultiPatternResult :=
  checkMultiplePatternsGo subject matchMode [] [] patterns

/-- Concrete always-matching pattern for witnesses. -/
def alwaysPattern : SubjectPattern :=
  { name := "p1", test := fun _ => some true }

/-! ## Long body chunking (slackNotifier: sendLongEmailBody) -/

/-- The `while` loop of `sendLongEmailBody` as a pure function from the
body (a sequence of code units) to the list of chunk texts posted as
continuation messages, in posting order.  Each iteration takes
`substring(0, min(chunkSize, remaining.length))` — i.e. `take 3500` — and
continues on the rest.  This models the success path (every webhook call
returns 200; a non-200 response would `break` the loop). -/
def sendLongEmailBodyChunks : List Char → List (List Char)
  | [] => []
  | c :: rest =>
    (c :: rest).take 3500 :: sendLongEmailBodyChunks ((c :: rest).drop 3500)
termination_by fullBody => fullBody.length
decreasing_by
  simp [List.length_drop]
  omega

/-- The dispatcher gate in `sendSlackNotification`: continuation messages
are emitted exactly when the body length exceeds 1000 (the same threshold
`buildSlackMessage` uses to switch the primary message to a preview). -/
def sendSlackNotificationBodyUnits (body : List Char) : List (List Char) :=
  if body.length > 1000 then sendLongEmailBodyChunks body else []

/-! ## Attachment file naming (driveManager: generateSimpleFilename,
ensureUniqueFilename) -/

/-- The `split('.')` / `pop` / `join('.')` idiom shared by
`generateSimpleFilename` and `ensureUniqueFilename`: when the name contains
a dot, the extension is `'.' + lastPart` and the base is the rest re-joined
with dots; otherwise the base is the whole name and the extension empty. -/
def splitNameAndExtension (fileName : List Char) : List Char × List Char :=
  let nameParts := fileName.splitOn '.'
  if 1 < nameParts.length then
    (List.intercalate ['.'] nameParts.dropLast, '.' :: (nameParts.getLast?.getD []))
  else (fileName, [])

/-- JS `String.prototype.trim`: drop whitespace at both ends. -/
def jsTrim (s : List Char) : List Char :=
  ((s.dropWhile Char.isWhitespace).reverse.dropWhile Char.isWhitespace).reverse

/-- The character class `[<>:"/\\|?*]` replaced by `'_'` in the source's
filename sanitisation. -/
def sanitizeFileChar (c : Char) : Char :=
  if c ∈ ['<', '>', ':', '"', '/', '\\', '|', '?', '*'] then '_' else c

/-- Embedding of `generateSimpleFilename(index, originalName)`.  The JS
truthiness test `originalName && originalName.trim()` becomes the
conjunction below; `timestamp` is the `HHmmss` string used only by the
fallback branch for unnamed attachments.  Note the numeric suffix is
appended whenever `index > 0`, independently of any other attachment's
name. -/
def generateSimpleFilename (index : Nat) (originalName : List Char)
    (timestamp : List Char) : List Char :=
  if originalName ≠ [] ∧ jsTrim originalName ≠ [] then
    let cleanName := jsTrim (originalName.map sanitizeFileChar)
    if 0 < index then
      let (baseName, extension) := splitNameAndExtension cleanName
      baseName ++ '_' :: (Nat.repr (index + 1)).data ++ extension
    else cleanName
  else
    ("attachment_".data ++ (Nat.repr (index + 1)).data ++ '_' :: timestamp)

/-- The candidate name `${baseName}_${counter}${extension}` probed by
`ensureUniqueFilename`. -/
def numberedCandidate (baseName extension : List Char) (counter : Nat) : List Char :=
  baseName ++ '_' :: (Nat.repr counter).data ++ extension

/-- The `do … while (counter < 100)` loop of `ensureUniqueFilename`.
`existing` is the set of file names already present in the folder
(`getFilesByName(n).hasNext()` ⟺ `n ∈ existing`).  A free candidate breaks
the loop; otherwise the counter is incremented and the loop exits — with
the colliding candidate as `uniqueName` — once `counter < 100` fails.
`fuel` is a structural termination device only: it is always entered with
`counter + fuel = 100`, so the source's own `counter + 1 < 100` guard fires
strictly before fuel runs out and the fuel-zero branch is unreachable. -/
def ensureUniqueFilenameLoop (existing : List (List Char))
    (baseName extension : List Char) : Nat → Nat → List Char
  | counter, 0 => numberedCandidate baseName extension counter
  | counter, fuel + 1 =>
    let uniqueName := numberedCandidate baseName extension counter
    if uniqueName ∈ existing then
      if counter + 1 < 100 then
        ensureUniqueFilenameLoop existing baseName extension (counter + 1) fuel
      else uniqueName
    else uniqueName

/-- Embedding of `ensureUniqueFilename`: no collision keeps the original
name, otherwise numeric-suffix candidates are probed starting from 1.  (The
source's timestamp fallback lives in its `catch` branch, reachable only
when a folder probe throws; folder probes are total in this model.) -/
def ensureUniqueFilename (existing : List (List Char)) (fileName : List Char) :
    List Char :=
  if fileName ∈ existing then
    let (baseName, extension) := splitNameAndExtension fileName
    ensureUniqueFilenameLoop existing baseName extension 1 99
  else fileName

/-- Folder contents that exhaust the probe cap: the original name and all
of `f_1.txt` … `f_99.txt` are taken. -/
def c7Folder : List (List Char) :=
  "f.txt".data ::
    (List.range 99).map (fun i => "f_".data ++ (Nat.repr (i + 1)).data ++ ".txt".data)

/-! ## Run coordination (main: processEmails) -/

/-- Observable behaviour of one message inside the per-message `try` of
`processEmails`: it is in the trash, already recorded in the ledger,
processed successfully (`processMessage` returns true), not processed
(`processMessage` returns false, e.g. no pattern matched), or an exception
is raised while handling it (caught by the per-message `catch`). -/
inductive MessageOutcome where
  | inTrash
  | alreadyProcessed
  | processedOk
  | notProcessed
  | raises
deriving DecidableEq, BEq, Repr

/-- The run counters of `processEmails`. -/
structure RunStats where
  checked : Nat
  processed : Nat
  errors : Nat
deriving DecidableEq, Repr

/-- The body of the inner `messages.forEach` of `processEmails`:
`checkedCount` is incremented first (it precedes everything that can
throw), then the message either is skipped, is processed (incrementing
`processedCount` and setting `threadHasNewMessages`), or raises — the
`catch` increments `errorCount` and the loop continues with the next
message. -/
def processOneMessage (acc : RunStats × Bool) (m : MessageOutcome) : RunStats × Bool :=
  let st := { acc.1 with checked := acc.1.checked + 1 }
  match m with
  | .inTrash => (st, acc.2)
  | .alreadyProcessed => (st, acc.2)
  | .processedOk => ({ st with processed := st.processed + 1 }, true)
  | .notProcessed => (st, acc.2)
  | .raises => ({ st with errors := st.errors + 1 }, acc.2)

/-- One thread iteration: fold the inner loop over the thread's messages,
starting with `threadHasNewMessages = false`.  The boolean only governs the
Gmail label, which has no bearing on the counters. -/
def processThread (stats : RunStats) (msgs : List MessageOutcome) : RunStats × Bool :=
  msgs.foldl processOneMessage (stats, false)

/-- Embedding of `processEmails` over a batch of threads (each a list of
message outcomes): returns the final counters plus the number of
end-of-run summary notifications sent (`sendErrorSummary` is invoked once,
after the loop, exactly when `errorCount > 0`). -/
def processEmails (threads : List (List MessageOutcome)) : RunStats × Nat :=
  let stats := threads.foldl (fun st msgs => (processThread st msgs).1)
    { checked := 0, processed := 0, errors := 0 }
  (stats, if stats.errors > 0 then 1 else 0)

/-! ## Theorems: deduplication ledger -/

/-- `markMessageProcessedInSheet` always amounts to appending the new row
and then dropping at most `CLEANUP_BATCH_SIZE` rows from the front, and in
the eviction case the drop count never exceeds the old row count. -/
theorem markMessageProcessedInSheet_eq_drop (rows : List SheetRow) (r : SheetRow) :
    ∃ k, k ≤ CLEANUP_BATCH_SIZE ∧ k ≤ rows.length ∧
      markMessageProcessedInSheet rows r = (rows ++ [r]).drop k := by
  simp only [markMessageProcessedInSheet, cleanupOldEntriesInSheet]
  by_cases hc : 1 + (rows ++ [r]).length > MAX_ROWS + CLEANUP_BATCH_SIZE
  · rw [if_pos hc]
    have hlen : (rows ++ [r]).length = rows.length + 1 := by simp
    have hge : rows.length + 1 ≥ MAX_ROWS + CLEANUP_BATCH_SIZE := by omega
    have hr : ¬ ((1 + ((rows ++ [r]).length : Int) - MAX_ROWS - 1) ≤ 0) := by
      rw [hlen]
      simp only [MAX_ROWS, CLEANUP_BATCH_SIZE] at hge ⊢
      omega
    rw [if_neg hr]
    refine ⟨min (1 + ((rows ++ [r]).length : Int) - MAX_ROWS - 1).toNat CLEANUP_BATCH_SIZE,
      ?_, ?_, rfl⟩
    · exact Nat.min_le_right _ _
    · rw [hlen]
      simp only [MAX_ROWS, CLEANUP_BATCH_SIZE] at hge ⊢
      omega
  · rw [if_neg hc]
    exact ⟨0, Nat.zero_le _, Nat.zero_le _, (List.drop_zero _).symm⟩

/-- The row passed to `markMessageProcessedInSheet` is always the last data
row of the resulting sheet: eviction never removes the entry whose append
triggered it. -/
theorem markMessageProcessedInSheet_getLast (rows : List SheetRow) (r : SheetRow) :
    (markMessageProcessedInSheet rows r).getLast? = some r := by
  obtain ⟨k, _, hkr, heq⟩ := markMessageProcessedInSheet_eq_drop rows r
  rw [heq, List.drop_append_of_le_length hkr, List.getLast?_concat]

/-- A record call never grows the sheet beyond
`MAX_ROWS + CLEANUP_BATCH_SIZE` data rows if it was within that bound
before. -/
theorem markMessageProcessedInSheet_length_le (rows : List SheetRow) (r : SheetRow)
    (h : rows.length ≤ MAX_ROWS + CLEANUP_BATCH_SIZE) :
    (markMessageProcessedInSheet rows r).length ≤ MAX_ROWS + CLEANUP_BATCH_SIZE := by
  simp only [markMessageProcessedInSheet, cleanupOldEntriesInSheet]
  by_cases hc : 1 + (rows ++ [r]).length > MAX_ROWS + CLEANUP_BATCH_SIZE
  · rw [if_pos hc]
    split
    · simp only [MAX_ROWS, CLEANUP_BATCH_SIZE] at *
      simp only [List.length_append, List.length_cons, List.length_nil] at *
      omega
    · simp only [List.length_drop, List.length_append, List.length_cons,
        List.length_nil] at *
      simp only [MAX_ROWS, CLEANUP_BATCH_SIZE] at *
      omega
  · rw [if_neg hc]
    simp only [List.length_append, List.length_cons, List.length_nil] at *
    simp only [MAX_ROWS, CLEANUP_BATCH_SIZE] at *
    omega

/-- Folding record calls from an in-bounds sheet keeps the sheet in
bounds. -/
theorem foldl_mark_length_le (es : List SheetRow) :
    ∀ s : List SheetRow, s.length ≤ MAX_ROWS + CLEANUP_BATCH_SIZE →
      (es.foldl markMessageProcessedInSheet s).length ≤ MAX_ROWS + CLEANUP_BATCH_SIZE := by
  induction es with
  | nil => intro s hs; simpa using hs
  | cons e es ih =>
    intro s hs
    exact ih _ (markMessageProcessedInSheet_length_le s e hs)

/-- After folding a nonempty list of record calls, the last data row is the
last recorded entry. -/
theorem foldl_mark_getLast :
    ∀ (es : List SheetRow), es ≠ [] → ∀ (s : List SheetRow),
      (es.foldl markMessageProcessedInSheet s).getLast? = es.getLast?
  | [], h, _ => absurd rfl h
  | [e], _, s => by
    simpa using markMessageProcessedInSheet_getLast s e
  | e :: e2 :: es, _, s => by
    rw [List.foldl_cons, foldl_mark_getLast (e2 :: es) (by simp) _,
      List.getLast?_cons_cons]

/-- Claim C1 is false on the code: `markMessageProcessedInSheet` performs
no pre-insert existence check — it appends unconditionally — so recording
the same message id twice in sequence commits two rows for that id, a
duplicate, starting from an empty sheet. -/
theorem c1_counterexample_record_twice_duplicates :
    ((markMessageProcessedInSheet (markMessageProcessedInSheet [] sampleRow) sampleRow).countP
      (fun row => row.messageId == "m1")) = 2 := by decide

/-- Claim C1 (amended): the record operation appends unconditionally, so
two record calls for the same id commit two rows (never zero — the new
entry is always the last row of the resulting sheet); at-most-one-entry is
enforced only by the caller `processEmails`, whose check-then-record step
(`isMessageAlreadyProcessed` before `markMessageProcessedInSheet`) leaves
exactly one row for the id when run twice in sequence. -/
theorem c1_amended_record_appends_caller_dedups (r : SheetRow) :
    (markMessageProcessedInSheet (markMessageProcessedInSheet [] r) r).countP
        (fun row => row.messageId == r.messageId) = 2
    ∧ (∀ rows, (markMessageProcessedInSheet rows r).getLast? = some r)
    ∧ (processEmailsRecordStep (processEmailsRecordStep [] r) r).countP
        (fun row => row.messageId == r.messageId) = 1 := by
  have h1 : markMessageProcessedInSheet [] r = [r] := by
    simp [markMessageProcessedInSheet, MAX_ROWS, CLEANUP_BATCH_SIZE]
  have h2 : markMessageProcessedInSheet [r] r = [r, r] := by
    simp [markMessageProcessedInSheet, MAX_ROWS, CLEANUP_BATCH_SIZE]
  refine ⟨?_, fun rows => markMessageProcessedInSheet_getLast rows r, ?_⟩
  · rw [h1, h2]
    simp [List.countP_cons]
  · have hs1 : processEmailsRecordStep [] r = [r] := by
      simp [processEmailsRecordStep, isMessageAlreadyProcessed,
        isMessageProcessedInSheet, h1]
    have hs2 : processEmailsRecordStep [r] r = [r] := by
      simp [processEmailsRecordStep, isMessageAlreadyProcessed,
        isMessageProcessedInSheet, List.contains]
    rw [hs1, hs2]
    simp [List.countP_cons]

/-- Claim C2: when the store access underlying the ledger membership query
throws, both `isMessageProcessedInSheet` and its caller
`isMessageAlreadyProcessed` return `false` — the catch converts the error
into a non-match, so a read error never yields `true` and (both functions
being total) never propagates. -/
theorem c2_has_fails_open (messageId : String) :
    isMessageProcessedInSheet SheetAccess.accessError messageId = false
    ∧ isMessageAlreadyProcessed SheetAccess.accessError messageId = false :=
  ⟨rfl, rfl⟩

/-- Claim C3: every record call is "append, then drop at most
`CLEANUP_BATCH_SIZE` oldest rows from the front" (so the new entry is
written before any eviction and eviction is one bounded batch of oldest
rows), and after `MAX_ROWS + CLEANUP_BATCH_SIZE + 1` record calls on an
initially empty sheet the sheet holds at most
`MAX_ROWS + CLEANUP_BATCH_SIZE` data rows with the most recent entry still
present as the last row. -/
theorem c3_ledger_eviction :
    (∀ (rows : List SheetRow) (r : SheetRow),
      ∃ k, k ≤ CLEANUP_BATCH_SIZE ∧
        markMessageProcessedInSheet rows r = (rows ++ [r]).drop k)
    ∧ ∀ (es : List SheetRow),
        es.length = MAX_ROWS + CLEANUP_BATCH_SIZE + 1 →
        (es.foldl markMessageProcessedInSheet []).length ≤ MAX_ROWS + CLEANUP_BATCH_SIZE
        ∧ (es.foldl markMessageProcessedInSheet []).getLast? = es.getLast? := by
  constructor
  · intro rows r
    obtain ⟨k, hk, _, heq⟩ := markMessageProcessedInSheet_eq_drop rows r
    exact ⟨k, hk, heq⟩
  · intro es hes
    have hne : es ≠ [] := by
      intro hnil
      rw [hnil] at hes
      simp [MAX_ROWS, CLEANUP_BATCH_SIZE] at hes
    exact ⟨foldl_mark_length_le es [] (by simp),
      foldl_mark_getLast es hne []⟩

/-- Witness for C3 at a concrete sequence of 11001 record calls. -/
theorem c3_ledger_eviction_witness :
    (List.replicate 11001 sampleRow).length = MAX_ROWS + CLEANUP_BATCH_SIZE + 1
    ∧ ((List.replicate 11001 sampleRow).foldl markMessageProcessedInSheet []).length
        ≤ MAX_ROWS + CLEANUP_BATCH_SIZE
      ∧ ((List.replicate 11001 sampleRow).foldl markMessageProcessedInSheet []).getLast?
        = (List.replicate 11001 sampleRow).getLast? :=
  ⟨by rw [List.length_replicate]; rfl,
    c3_ledger_eviction.2 _ (by rw [List.length_replicate]; rfl)⟩

/-! ## Theorems: pattern matching -/

/-- Claim C10: on the empty pattern list, `checkMultiplePatterns` is false
in `any` mode but vacuously true in `all` mode (with no matched pattern),
because the final result applies `Array.prototype.every` to an empty
results array. -/
theorem c10_empty_patterns_vacuous_all (S : String) :
    (checkMultiplePatterns S [] "any").isMatch = false
    ∧ (checkMultiplePatterns S [] "all").isMatch = true
    ∧ (checkMultiplePatterns S [] "all").matchedPattern = none :=
  ⟨rfl, rfl, rfl⟩

/-- Boolean equality of an optional boolean with `some true` collapses to
the boolean itself. -/
theorem optionBool_beq_some_true (b : Bool) : (some b == some true) = b := by
  cases b <;> rfl

/-- Loop invariant of `checkMultiplePatterns` in `any` mode: as long as all
accumulated results are non-matches, the final `isMatch` is the existence
of a successfully matching pattern among the remaining ones and
`matchedPattern` is the first such pattern. -/
theorem checkGo_any_spec (S : String) :
    ∀ (P : List SubjectPattern) (checked : List String) (results : List PatternCheck),
      results.all (fun r => !r.isMatch) = true →
      ((checkMultiplePatternsGo S "any" checked results P).isMatch = true
        ↔ ∃ p ∈ P, p.test S = some true)
      ∧ (checkMultiplePatternsGo S "any" checked results P).matchedPattern
          = (P.find? (fun p => p.test S == some true)).map (·.name) := by
  intro P
  induction P with
  | nil =>
    intro checked results hall
    have hany : results.any (·.isMatch) = false := by
      simp only [List.all_eq_true, Bool.not_eq_true'] at hall
      simp only [List.any_eq_false, Bool.not_eq_true]
      exact hall
    constructor
    · simp [checkMultiplePatternsGo, hany]
    · simp [checkMultiplePatternsGo, hany]
  | cons p ps ih =>
    intro checked results hall
    cases hp : p.test S with
    | some b =>
      cases b with
      | true =>
        have hfind : List.find? (fun q => q.test S == some true) (p :: ps) = some p :=
          List.find?_cons_of_pos _ (by simp [hp])
        constructor
        · constructor
          · intro _
            exact ⟨p, List.mem_cons_self p ps, hp⟩
          · intro _
            simp [checkMultiplePatternsGo, hp]
        · rw [hfind]
          simp [checkMultiplePatternsGo, hp]
      | false =>
        have hall' : (results ++ [({ pattern := p.name, isMatch := false, errored := false } : PatternCheck)]).all
            (fun r => !r.isMatch) = true := by
          simp [List.all_append, hall]
        obtain ⟨ih1, ih2⟩ :=
          ih (checked ++ [p.name]) (results ++ [({ pattern := p.name, isMatch := false, errored := false } : PatternCheck)]) hall'
        have hfind : List.find? (fun q => q.test S == some true) (p :: ps)
            = List.find? (fun q => q.test S == some true) ps :=
          List.find?_cons_of_neg _ (by simp [hp])
        constructor
        · simp only [checkMultiplePatternsGo, hp]
          rw [if_neg (by simp)]
          rw [ih1]
          simp [hp]
        · simp only [checkMultiplePatternsGo, hp]
          rw [if_neg (by simp)]
          rw [ih2, hfind]
    | none =>
      have hall' : (results ++ [({ pattern := p.name, isMatch := false, errored := true } : PatternCheck)]).all
          (fun r => !r.isMatch) = true := by
        simp [List.all_append, hall]
      obtain ⟨ih1, ih2⟩ :=
        ih (checked ++ [p.name]) (results ++ [({ pattern := p.name, isMatch := false, errored := true } : PatternCheck)]) hall'
      have hfind : List.find? (fun q => q.test S == some true) (p :: ps)
          = List.find? (fun q => q.test S == some true) ps :=
        List.find?_cons_of_neg _ (by simp [hp])
      constructor
      · simp only [checkMultiplePatternsGo, hp]
        rw [ih1]
        simp [hp]
      · simp only [checkMultiplePatternsGo, hp]
        rw [ih2, hfind]

/-- Claim C4: in `any` mode on a non-empty pattern list, `isMatch` holds
iff some pattern evaluates to a match on the subject, and `matchedPattern`
names the first matching pattern in list order. -/
theorem c4_any_mode (S : String) (P : List SubjectPattern) (hP : P ≠ []) :
    ((checkMultiplePatterns S P "any").isMatch = true
      ↔ ∃ p ∈ P, p.test S = some true)
    ∧ (checkMultiplePatterns S P "any").matchedPattern
        = (P.find? (fun p => p.test S == some true)).map (·.name) :=
  checkGo_any_spec S P [] [] rfl

/-- Witness for C4 on a concrete one-pattern list. -/
theorem c4_any_mode_witness :
    ([alwaysPattern] ≠ [])
    ∧ (((checkMultiplePatterns "x" [alwaysPattern] "any").isMatch = true
        ↔ ∃ p ∈ [alwaysPattern], p.test "x" = some true)
      ∧ (checkMultiplePatterns "x" [alwaysPattern] "any").matchedPattern
          = (([alwaysPattern].find? (fun p => p.test "x" == some true)).map (·.name))) :=
  ⟨by simp, c4_any_mode "x" [alwaysPattern] (by simp)⟩

/-- Loop invariant of `checkMultiplePatterns` in `all` mode: the loop never
short-circuits — it visits (and records) every remaining pattern — and the
final `isMatch` is the conjunction of the accumulated matches with the
matches of all remaining patterns, where a thrown evaluation counts as a
non-match. -/
theorem checkGo_all_spec (S : String) :
    ∀ (P : List SubjectPattern) (checked : List String) (results : List PatternCheck),
      (checkMultiplePatternsGo S "all" checked results P).checkedPatterns
          = checked ++ P.map (·.name)
      ∧ (checkMultiplePatternsGo S "all" checked results P).allResults.length
          = results.length + P.length
      ∧ (checkMultiplePatternsGo S "all" checked results P).isMatch
          = (results.all (·.isMatch) && P.all (fun p => p.test S == some true)) := by
  intro P
  induction P with
  | nil =>
    intro checked results
    refine ⟨by simp [checkMultiplePatternsGo], by simp [checkMultiplePatternsGo], ?_⟩
    simp [checkMultiplePatternsGo]
  | cons p ps ih =>
    intro checked results
    cases hp : p.test S with
    | some b =>
      obtain ⟨ih1, ih2, ih3⟩ :=
        ih (checked ++ [p.name])
          (results ++ [({ pattern := p.name, isMatch := b, errored := false } : PatternCheck)])
      refine ⟨?_, ?_, ?_⟩
      · simp only [checkMultiplePatternsGo, hp]
        rw [if_neg (by simp)]
        rw [ih1]
        simp
      · simp only [checkMultiplePatternsGo, hp]
        rw [if_neg (by simp)]
        rw [ih2]
        simp
        omega
      · simp only [checkMultiplePatternsGo, hp]
        rw [if_neg (by simp)]
        rw [ih3]
        simp only [List.all_append, List.all_cons, List.all_nil, Bool.and_true, hp]
        rw [optionBool_beq_some_true]
        cases results.all (·.isMatch) <;> cases b <;>
          cases ps.all (fun p => p.test S == some true) <;> rfl
    | none =>
      obtain ⟨ih1, ih2, ih3⟩ :=
        ih (checked ++ [p.name])
          (results ++ [({ pattern := p.name, isMatch := false, errored := true } : PatternCheck)])
      refine ⟨?_, ?_, ?_⟩
      · simp only [checkMultiplePatternsGo, hp]
        rw [ih1]
        simp
      · simp only [checkMultiplePatternsGo, hp]
        rw [ih2]
        simp
        omega
      · simp only [checkMultiplePatternsGo, hp]
        rw [ih3]
        simp only [List.all_append, List.all_cons, List.all_nil, Bool.and_true, hp]
        cases results.all (·.isMatch) <;>
          cases ps.all (fun p => p.test S == some true) <;> rfl

/-- Claim C5: in `all` mode on a non-empty pattern list, every pattern is
evaluated (one checked entry and one result entry per pattern, including
after a pattern whose evaluation throws, which is recorded as a non-match
without aborting), and `isMatch` holds iff every pattern evaluates to a
match on the subject. -/
theorem c5_all_mode (S : String) (P : List SubjectPattern) (hP : P ≠ []) :
    (checkMultiplePatterns S P "all").checkedPatterns = P.map (·.name)
    ∧ (checkMultiplePatterns S P "all").allResults.length = P.length
    ∧ ((checkMultiplePatterns S P "all").isMatch = true
        ↔ ∀ p ∈ P, p.test S = some true) := by
  obtain ⟨h1, h2, h3⟩ := checkGo_all_spec S P [] []
  refine ⟨by simpa using h1, by simpa using h2, ?_⟩
  simp only [checkMultiplePatterns] at h3 ⊢
  rw [h3]
  simp [List.all_eq_true]

/-- Witness for C5 on a concrete one-pattern list. -/
theorem c5_all_mode_witness :
    ([alwaysPattern] ≠ [])
    ∧ ((checkMultiplePatterns "x" [alwaysPattern] "all").checkedPatterns
          = [alwaysPattern].map (·.name)
      ∧ (checkMultiplePatterns "x" [alwaysPattern] "all").allResults.length
          = [alwaysPattern].length
      ∧ ((checkMultiplePatterns "x" [alwaysPattern] "all").isMatch = true
          ↔ ∀ p ∈ [alwaysPattern], p.test "x" = some true)) :=
  ⟨by simp, c5_all_mode "x" [alwaysPattern] (by simp)⟩

/-! ## Theorems: long body chunking -/

/-- Concatenating the chunks of `sendLongEmailBody` in posting order
reproduces the body exactly. -/
theorem sendLongEmailBodyChunks_flatten (body : List Char) :
    (sendLongEmailBodyChunks body).flatten = body := by
  induction body using sendLongEmailBodyChunks.induct with
  | case1 => simp [sendLongEmailBodyChunks]
  | case2 c rest ih =>
    simp only [sendLongEmailBodyChunks, List.flatten_cons]
    rw [ih, List.take_append_drop]

/-- Every chunk posted by `sendLongEmailBody` has at most 3500
characters. -/
theorem sendLongEmailBodyChunks_length_le (body : List Char) :
    ∀ ch ∈ sendLongEmailBodyChunks body, ch.length ≤ 3500 := by
  induction body using sendLongEmailBodyChunks.induct with
  | case1 =>
    intro ch hch
    simp [sendLongEmailBodyChunks] at hch
  | case2 c rest ih =>
    intro ch hch
    simp only [sendLongEmailBodyChunks, List.mem_cons] at hch
    cases hch with
    | inl h =>
      rw [h, List.length_take]
      exact Nat.min_le_left _ _
    | inr h => exact ih ch h

/-- Claim C6: for a body longer than the preview threshold (1000), the
dispatcher emits the entire body as continuation chunks of at most 3500
characters each, in original order with no gaps or overlaps:
concatenating the emitted chunks reproduces the body exactly. -/
theorem c6_body_chunk_round_trip (body : List Char) (h : 1000 < body.length) :
    (sendSlackNotificationBodyUnits body).flatten = body
    ∧ ∀ ch ∈ sendSlackNotificationBodyUnits body, ch.length ≤ 3500 := by
  have hgate : sendSlackNotificationBodyUnits body = sendLongEmailBodyChunks body := by
    simp [sendSlackNotificationBodyUnits, h]
  rw [hgate]
  exact ⟨sendLongEmailBodyChunks_flatten body, sendLongEmailBodyChunks_length_le body⟩

/-- Witness for C6 at a concrete body of length threshold + 1. -/
theorem c6_body_chunk_round_trip_witness :
    1000 < (List.replicate 1001 'a').length
    ∧ ((sendSlackNotificationBodyUnits (List.replicate 1001 'a')).flatten
          = List.replicate 1001 'a'
      ∧ ∀ ch ∈ sendSlackNotificationBodyUnits (List.replicate 1001 'a'),
          ch.length ≤ 3500) :=
  ⟨by rw [List.length_replicate]; decide,
    c6_body_chunk_round_trip _ (by rw [List.length_replicate]; decide)⟩

/-! ## Theorems: attachment file naming -/

/-- Claim C7 is false on the code: with `f.txt` and all of `f_1.txt` …
`f_99.txt` already present, the probe loop exhausts its cap and returns the
last probed candidate `f_99.txt` — a still-colliding numeric-suffix name,
not a timestamp-qualified fallback (the timestamp fallback exists only in
the function's catch branch). -/
theorem c7_counterexample_cap_returns_colliding_name :
    ensureUniqueFilename c7Folder "f.txt".data = "f_99.txt".data
    ∧ "f_99.txt".data ∈ c7Folder := by decide

/-- The probe loop, entered at `counter` with `counter + fuel = 100`,
either returns a collision-free name, or — when every candidate from
`counter` to 99 collides — returns the (still colliding) 99th candidate. -/
theorem ensureUniqueFilenameLoop_spec (existing : List (List Char)) (b e : List Char) :
    ∀ (fuel counter : Nat), 1 ≤ counter → counter ≤ 99 → counter + fuel = 100 →
      ensureUniqueFilenameLoop existing b e counter fuel ∉ existing
      ∨ (ensureUniqueFilenameLoop existing b e counter fuel = numberedCandidate b e 99
        ∧ ∀ k, counter ≤ k → k ≤ 99 → numberedCandidate b e k ∈ existing) := by
  intro fuel
  induction fuel with
  | zero =>
    intro counter h1 h99 hsum
    omega
  | succ fuel ih =>
    intro counter h1 h99 hsum
    simp only [ensureUniqueFilenameLoop]
    by_cases hmem : numberedCandidate b e counter ∈ existing
    · rw [if_pos hmem]
      by_cases hlt : counter + 1 < 100
      · rw [if_pos hlt]
        rcases ih (counter + 1) (by omega) (by omega) (by omega) with hL | ⟨hEq, hAll⟩
        · exact Or.inl hL
        · refine Or.inr ⟨hEq, ?_⟩
          intro k hk1 hk2
          rcases Nat.eq_or_lt_of_le hk1 with heq | hk
          · rw [← heq]
            exact hmem
          · exact hAll k (by omega) hk2
      · rw [if_neg hlt]
        have hceq : counter = 99 := by omega
        subst hceq
        refine Or.inr ⟨rfl, ?_⟩
        intro k hk1 hk2
        have hk99 : k = 99 := by omega
        subst hk99
        exact hmem
    · rw [if_neg hmem]
      exact Or.inl hmem

/-- Claim C7 (amended): `ensureUniqueFilename` returns the original name
when it is free; on a collision it probes numeric-suffix candidates `_1` …
`_99` and returns the first free one, but when every probed candidate still
collides it returns the last probed candidate `_99` — still colliding —
rather than a timestamp-qualified fallback; the timestamp fallback is used
only when a folder probe throws (the catch branch), not on cap
exhaustion. -/
theorem c7_amended_cap_keeps_last_candidate (existing : List (List Char))
    (fileName : List Char) :
    (fileName ∉ existing → ensureUniqueFilename existing fileName = fileName)
    ∧ (fileName ∈ existing →
        ensureUniqueFilename existing fileName ∉ existing
        ∨ (ensureUniqueFilename existing fileName
              = numberedCandidate (splitNameAndExtension fileName).1
                  (splitNameAndExtension fileName).2 99
          ∧ ∀ k, 1 ≤ k → k ≤ 99 →
              numberedCandidate (splitNameAndExtension fileName).1
                (splitNameAndExtension fileName).2 k ∈ existing)) := by
  constructor
  · intro h
    simp [ensureUniqueFilename, h]
  · intro h
    have hloop := ensureUniqueFilenameLoop_spec existing
      (splitNameAndExtension fileName).1 (splitNameAndExtension fileName).2
      99 1 (by omega) (by omega) (by omega)
    have heq : ensureUniqueFilename existing fileName
        = ensureUniqueFilenameLoop existing (splitNameAndExtension fileName).1
            (splitNameAndExtension fileName).2 1 99 := by
      simp [ensureUniqueFilename, h]
    rw [heq]
    exact hloop

/-- Witness for the amended C7 on a concrete folder where the first numeric
candidate resolves the collision. -/
theorem c7_amended_cap_keeps_last_candidate_witness :
    ("a.txt".data ∈ ["a.txt".data])
    ∧ (ensureUniqueFilename ["a.txt".data] "a.txt".data ∉ ["a.txt".data]
      ∨ (ensureUniqueFilename ["a.txt".data] "a.txt".data
            = numberedCandidate (splitNameAndExtension "a.txt".data).1
                (splitNameAndExtension "a.txt".data).2 99
        ∧ ∀ k, 1 ≤ k → k ≤ 99 →
            numberedCandidate (splitNameAndExtension "a.txt".data).1
              (splitNameAndExtension "a.txt".data).2 k ∈ ["a.txt".data])) :=
  ⟨by decide,
    (c7_amended_cap_keeps_last_candidate ["a.txt".data] "a.txt".data).2 (by decide)⟩

/-- Claim C8 is false on the code: for the attachment sequence
`["a.pdf", "b.pdf"]` — two different names, so nothing is shared — the
candidate stored name of the second attachment is not the sanitized
original `b.pdf` but `b_2.pdf`: `generateSimpleFilename` appends the
positional suffix for every `index > 0`, regardless of name sharing. -/
theorem c8_counterexample_suffix_without_sharing :
    generateSimpleFilename 0 "a.pdf".data "000000".data = "a.pdf".data
    ∧ generateSimpleFilename 1 "b.pdf".data "000000".data = "b_2.pdf".data
    ∧ ¬ ("b_2.pdf".data = "b.pdf".data) := by decide

/-- For any positive index, `generateSimpleFilename` on `report.pdf`
inserts the positional suffix before the extension. -/
theorem generateSimpleFilename_report_pos (i : Nat) (hi : 0 < i) (ts : List Char) :
    generateSimpleFilename i "report.pdf".data ts
      = "report".data ++ ('_' :: ((Nat.repr (i + 1)).data ++ ".pdf".data)) := by
  simp only [generateSimpleFilename]
  rw [if_pos (by decide : ("report.pdf".data ≠ [] ∧ jsTrim "report.pdf".data ≠ []))]
  rw [if_pos hi]
  rw [show splitNameAndExtension (jsTrim (List.map sanitizeFileChar "report.pdf".data))
      = ("report".data, ".pdf".data) from by decide]
  rfl

/-- Claim C8 (amended): the positional suffix `_(index+1)` is appended for
every attachment after the first in input order, independently of whether
any other attachment shares the name (the function only sees the index and
the name); the first attachment keeps the sanitized original name.  In
particular two attachments both named `report.pdf` yield `report.pdf` and
`report_2.pdf` — distinct stored names, both ending in `.pdf` — and every
later attachment's stored name differs from the first attachment's even
when its name is unique in the sequence. -/
theorem c8_amended_suffix_is_positional :
    (∀ ts, generateSimpleFilename 0 "report.pdf".data ts = "report.pdf".data)
    ∧ (∀ ts, generateSimpleFilename 1 "report.pdf".data ts = "report_2.pdf".data)
    ∧ ¬ ("report.pdf".data = "report_2.pdf".data)
    ∧ (".pdf".data.isSuffixOf "report.pdf".data
        ∧ ".pdf".data.isSuffixOf "report_2.pdf".data)
    ∧ (∀ i ts ts', 0 < i →
        generateSimpleFilename i "report.pdf".data ts
          ≠ generateSimpleFilename 0 "report.pdf".data ts') := by
  refine ⟨fun ts => rfl, fun ts => rfl, by decide, by decide, ?_⟩
  intro i ts ts' hi heq
  rw [generateSimpleFilename_report_pos i hi ts] at heq
  rw [show generateSimpleFilename 0 "report.pdf".data ts' = "report.pdf".data from rfl] at heq
  rw [show ("report.pdf".data : List Char) = "report".data ++ ('.' :: "pdf".data) from by decide]
    at heq
  have htail := List.append_cancel_left heq
  have hhead : '_' = '.' := (List.cons.injEq _ _ _ _ ▸ htail).1
  exact absurd hhead (by decide)

/-- Witness for the amended C8 at index 1. -/
theorem c8_amended_suffix_is_positional_witness :
    0 < 1
    ∧ generateSimpleFilename 1 "report.pdf".data "t".data
        ≠ generateSimpleFilename 0 "report.pdf".data "u".data :=
  ⟨by decide,
    c8_amended_suffix_is_positional.2.2.2.2 1 "t".data "u".data (by decide)⟩

/-! ## Theorems: run coordination -/

/-- Counter bookkeeping of the inner message loop: every message of the
thread is visited (checked grows by the thread length even when raising
messages are present), processed grows by the number of successfully
processed messages, and errors grows by the number of raising messages. -/
theorem messageOutcome_beq_self (m : MessageOutcome) : (m == m) = true := by
  cases m <;> rfl

theorem processThread_counts (msgs : List MessageOutcome) :
    ∀ (st : RunStats) (bb : Bool),
      (msgs.foldl processOneMessage (st, bb)).1.checked = st.checked + msgs.length
      ∧ (msgs.foldl processOneMessage (st, bb)).1.processed
          = st.processed + msgs.countP (· == MessageOutcome.processedOk)
      ∧ (msgs.foldl processOneMessage (st, bb)).1.errors
          = st.errors + msgs.countP (· == MessageOutcome.raises) := by
  induction msgs with
  | nil =>
    intro st bb
    simp
  | cons m ms ih =>
    intro st bb
    rw [List.foldl_cons]
    cases m with
    | inTrash =>
      obtain ⟨h1, h2, h3⟩ := ih { st with checked := st.checked + 1 } bb
      simp at h1 h2 h3
      refine ⟨?_, ?_, ?_⟩ <;>
        simp [processOneMessage, h1, h2, h3, List.countP_cons, messageOutcome_beq_self] <;>
        first
        | omega
        | decide
    | alreadyProcessed =>
      obtain ⟨h1, h2, h3⟩ := ih { st with checked := st.checked + 1 } bb
      simp at h1 h2 h3
      refine ⟨?_, ?_, ?_⟩ <;>
        simp [processOneMessage, h1, h2, h3, List.countP_cons, messageOutcome_beq_self] <;>
        first
        | omega
        | decide
    | processedOk =>
      obtain ⟨h1, h2, h3⟩ := ih
        { st with checked := st.checked + 1, processed := st.processed + 1 } true
      simp at h1 h2 h3
      refine ⟨?_, ?_, ?_⟩ <;>
        simp [processOneMessage, h1, h2, h3, List.countP_cons, messageOutcome_beq_self] <;>
        first
        | omega
        | decide
    | notProcessed =>
      obtain ⟨h1, h2, h3⟩ := ih { st with checked := st.checked + 1 } bb
      simp at h1 h2 h3
      refine ⟨?_, ?_, ?_⟩ <;>
        simp [processOneMessage, h1, h2, h3, List.countP_cons, messageOutcome_beq_self] <;>
        first
        | omega
        | decide
    | raises =>
      obtain ⟨h1, h2, h3⟩ := ih
        { st with checked := st.checked + 1, errors := st.errors + 1 } bb
      simp at h1 h2 h3
      refine ⟨?_, ?_, ?_⟩ <;>
        simp [processOneMessage, h1, h2, h3, List.countP_cons, messageOutcome_beq_self] <;>
        first
        | omega
        | decide

/-- Counter bookkeeping of the outer thread loop. -/
theorem processEmails_foldl_counts (threads : List (List MessageOutcome)) :
    ∀ st : RunStats,
      (threads.foldl (fun st msgs => (processThread st msgs).1) st).checked
          = st.checked + (threads.map List.length).sum
      ∧ (threads.foldl (fun st msgs => (processThread st msgs).1) st).processed
          = st.processed
            + (threads.map (·.countP (· == MessageOutcome.processedOk))).sum
      ∧ (threads.foldl (fun st msgs => (processThread st msgs).1) st).errors
          = st.errors + (threads.map (·.countP (· == MessageOutcome.raises))).sum := by
  induction threads with
  | nil =>
    intro st
    simp
  | cons t ts ih =>
    intro st
    rw [List.foldl_cons]
    obtain ⟨h1, h2, h3⟩ := ih ((processThread st t).1)
    obtain ⟨g1, g2, g3⟩ := processThread_counts t st false
    have g1' : (processThread st t).1.checked = st.checked + t.length := g1
    have g2' : (processThread st t).1.processed
        = st.processed + t.countP (· == MessageOutcome.processedOk) := g2
    have g3' : (processThread st t).1.errors
        = st.errors + t.countP (· == MessageOutcome.raises) := g3
    refine ⟨?_, ?_, ?_⟩ <;>
      simp only [h1, h2, h3, g1', g2', g3', List.map_cons, List.sum_cons] <;>
      omega

/-- Claim C9: over every batch of threads, a raising message is counted in
`errors` without stopping the batch (every message is still checked and
every non-raising message still contributes to its counter), the run
reports `checked`, `processed` and `errors` as the totals over all
messages, and the end-of-run summary notification is sent exactly once iff
`errors > 0` and never more than once. -/
theorem c9_per_message_isolation (threads : List (List MessageOutcome)) :
    (processEmails threads).1.checked = (threads.map List.length).sum
    ∧ (processEmails threads).1.processed
        = (threads.map (·.countP (· == MessageOutcome.processedOk))).sum
    ∧ (processEmails threads).1.errors
        = (threads.map (·.countP (· == MessageOutcome.raises))).sum
    ∧ ((processEmails threads).2 = 1 ↔ 0 < (processEmails threads).1.errors)
    ∧ (processEmails threads).2 ≤ 1 := by
  obtain ⟨h1, h2, h3⟩ :=
    processEmails_foldl_counts threads { checked := 0, processed := 0, errors := 0 }
  simp only [processEmails]
  refine ⟨by simpa using h1, by simpa using h2, by simpa using h3, ?_, ?_⟩
  · by_cases he :
      0 < (threads.foldl (fun st msgs => (processThread st msgs).1)
        { checked := 0, processed := 0, errors := 0 }).errors
    · simp [he]
    · simp [he]
  · split <;> omega
